import Mathlib

/-!
Verification development for the Clony object store and commit flow.

The Python function `clony.internals.commit.read_index_file` and
`clony.internals.commit.make_commit` are embedded below together with the
collaborators they call.  The collaborator modules `clony.core.objects`,
`clony.core.refs` and `clony.internals.staging` are not part of the source
tree available here, so their relevant operations are modelled from the
specification (each such definition carries a doc comment saying so).

Byte strings are `List Nat` (each element one byte); text is `String`,
manipulated through character-list helpers so that every definition is
executable by the kernel.
-/

namespace Clony

/-! ## Character-list string helpers (Python `str.strip`, `str.split`) -/

/-- Drop whitespace from both ends of a character list; this is the
character-level behaviour of Python `str.strip()`. -/
def trimChars (l : List Char) : List Char :=
  ((l.dropWhile Char.isWhitespace).reverse.dropWhile Char.isWhitespace).reverse

/-- Split a character list at every character satisfying `p`, keeping empty
segments.  Splitting on whitespace and then discarding empty segments is
exactly Python `str.split()` with no arguments. -/
def splitWhen (p : Char → Bool) : List Char → List (List Char)
  | [] => [[]]
  | x :: xs =>
    let r := splitWhen p xs
    if p x then [] :: r
    else
      match r with
      | h :: t => (x :: h) :: t
      | [] => [[x]]

/-- Whitespace-separated tokens of a character list, matching Python
`str.split()` with no arguments. -/
def pyTokens (l : List Char) : List (List Char) :=
  (splitWhen Char.isWhitespace l).filter (fun t => t ≠ [])

/-- Lines of a file content string, matching Python `readlines` followed by
per-line `strip()` (the line terminators are removed by the strip). -/
def linesOf (content : String) : List String :=
  (splitWhen (fun c => c = Char.ofNat 10) content.data).map String.mk

/-- Bool test that `s` starts with `pre`, matching Python `str.startswith`. -/
def strStartsWith (s pre : String) : Bool :=
  pre.data.isPrefixOf s.data

/-! ## Association-list dictionary (Python `dict` with string keys)

Python dict assignment keeps the position of an existing key and overwrites
its value, otherwise appends the new binding at the end. -/

/-- Insert or overwrite a key in an association list, Python-dict style. -/
def dictInsert : List (String × String) → String → String → List (String × String)
  | [], k, v => [(k, v)]
  | (a, b) :: t, k, v => if a = k then (k, v) :: t else (a, b) :: dictInsert t k v

/-- Look a key up in an association list (first binding wins). -/
def lookupD {α : Type} (d : List (String × α)) (k : String) : Option α :=
  (d.find? (fun p => p.1 = k)).map (fun p => p.2)

/-! ## `read_index_file` (translated from `src/clony/internals/commit.py`)

The index file is passed as `Option String`: `none` models a file that does
not exist, `some content` models an existing file with the given text. -/

/-- Body of the line loop of `read_index_file`: when `strip().split()` on
the line yields exactly two tokens, bind the first (a path) to the second
(a blob hash); otherwise leave the dictionary unchanged. -/
def indexStep (d : List (String × String)) (line : String) : List (String × String) :=
  match pyTokens (trimChars line.data) with
  | [fp, h] => dictInsert d (String.mk fp) (String.mk h)
  | _ => d

/-- Embedding of `clony.internals.commit.read_index_file`: collect into a
dictionary every line whose `strip().split()` yields exactly two tokens,
mapping the first token (a path) to the second (a blob hash). -/
def read_index_file (indexFile : Option String) : List (String × String) :=
  match indexFile with
  | none => []
  | some content => (linesOf content).foldl indexStep []

/-- Parse a single index line the way `read_index_file` does, returning the
path/hash pair when the line has exactly two tokens and `none` otherwise. -/
def parseIndexLine (line : String) : Option (String × String) :=
  match pyTokens (trimChars line.data) with
  | [fp, h] => some (String.mk fp, String.mk h)
  | _ => none

/-- Build a dictionary from a list of path/hash pairs by repeated insertion. -/
def buildDict (ps : List (String × String)) : List (String × String) :=
  ps.foldl (fun d p => dictInsert d p.1 p.2) []

/-- Pairs harvested from the well-formed (two-token) lines of an index file. -/
def parsedPairs (content : String) : List (String × String) :=
  (linesOf content).filterMap parseIndexLine

/-! ## Dictionary lemmas -/

theorem lookupD_nil {α : Type} (k : String) : lookupD ([] : List (String × α)) k = none := rfl

theorem lookupD_cons {α : Type} (a : String) (b : α) (t : List (String × α)) (k : String) :
    lookupD ((a, b) :: t) k = if a = k then some b else lookupD t k := by
  by_cases h : a = k
  · simp [lookupD, List.find?_cons_of_pos, h]
  · simp only [lookupD, if_neg h]
    rw [List.find?_cons_of_neg]
    simpa using h

theorem lookupD_dictInsert (d : List (String × String)) (k v k' : String) :
    lookupD (dictInsert d k v) k' = if k' = k then some v else lookupD d k' := by
  induction d with
  | nil =>
    show lookupD [(k, v)] k' = _
    rw [lookupD_cons, lookupD_nil]
    by_cases h : k' = k
    · rw [if_pos h.symm, if_pos h]
    · rw [if_neg (Ne.symm h), if_neg h]
  | cons p t ih =>
    obtain ⟨a, b⟩ := p
    simp only [dictInsert]
    by_cases hak : a = k
    · subst hak
      rw [if_pos rfl, lookupD_cons, lookupD_cons]
      by_cases h : k' = a
      · rw [if_pos h.symm, if_pos h]
      · rw [if_neg (Ne.symm h), if_neg h, if_neg (Ne.symm h)]
    · rw [if_neg hak, lookupD_cons, lookupD_cons, ih]
      by_cases h1 : a = k'
      · have h2 : ¬k' = k := fun hh => hak (h1.trans hh)
        rw [if_pos h1, if_neg h2, if_pos h1]
      · rw [if_neg h1, if_neg h1]

theorem lookupD_foldl_dictInsert (ps : List (String × String)) :
    ∀ (d : List (String × String)) (k : String),
      lookupD (ps.foldl (fun d p => dictInsert d p.1 p.2) d) k =
        ((ps.reverse.find? (fun p => p.1 = k)).map (fun p => p.2)).or (lookupD d k) := by
  induction ps with
  | nil => intro d k; simp
  | cons p t ih =>
    intro d k
    simp only [List.foldl_cons, List.reverse_cons]
    rw [ih]
    rw [List.find?_append]
    cases hfind : t.reverse.find? (fun p => p.1 = k) with
    | some q => simp [hfind, Option.or]
    | none =>
      simp only [hfind, Option.map_none, Option.none_or]
      rw [lookupD_dictInsert]
      by_cases h : k = p.1
      · subst h
        rw [if_pos rfl]
        simp [List.find?]
      · rw [if_neg h]
        have hd : (fun q => decide (q.1 = k)) p = false :=
          decide_eq_false (fun hh => h hh.symm)
        simp [List.find?, hd]

/-! ## Content Addresser

Modelled from the spec: `clony.core.objects.calculate_sha1_hash` is not in
the available source tree; the spec (section 4.1) and the test
`test_calculate_sha1_hash` fix it as the SHA-1 hexadecimal digest of the
input bytes, implemented here in full over `Nat` with explicit reduction
modulo two to the thirty-second power. -/

/-- Modulus for 32-bit words. -/
def pow32 : Nat := 4294967296

/-- Rotate a 32-bit word left by `n` bits. -/
def rotl32 (n x : Nat) : Nat :=
  (((x <<< n) % pow32) ||| (x >>> (32 - n))) % pow32

/-- Big-endian 8-byte rendering of a natural number. -/
def be64 (n : Nat) : List Nat :=
  [(n >>> 56) % 256, (n >>> 48) % 256, (n >>> 40) % 256, (n >>> 32) % 256,
   (n >>> 24) % 256, (n >>> 16) % 256, (n >>> 8) % 256, n % 256]

/-- SHA-1 padding: append the 128 byte, zero bytes up to 56 mod 64, then the
bit length as 8 big-endian bytes. -/
def sha1Pad (msg : List Nat) : List Nat :=
  msg ++ [128] ++ List.replicate ((119 - msg.length % 64) % 64) 0 ++ be64 (8 * msg.length)

/-- Assemble consecutive groups of four bytes into big-endian 32-bit words. -/
def bytesToWords : List Nat → List Nat
  | b0 :: b1 :: b2 :: b3 :: rest =>
    (((b0 % 256) <<< 24) + ((b1 % 256) <<< 16) + ((b2 % 256) <<< 8) + (b3 % 256))
      :: bytesToWords rest
  | _ => []

/-- Extend the reversed word schedule by `k` more words using the SHA-1
recurrence (word i is the rotation of the xor of words i-3, i-8, i-14, i-16). -/
def sha1ExpandRev : List Nat → Nat → List Nat
  | rev, 0 => rev
  | rev, k + 1 =>
    sha1ExpandRev
      (rotl32 1 ((rev.getD 2 0) ^^^ (rev.getD 7 0) ^^^ (rev.getD 13 0) ^^^ (rev.getD 15 0)) :: rev)
      k

/-- Five-word running digest state of SHA-1. -/
structure Sha1State where
  a : Nat
  b : Nat
  c : Nat
  d : Nat
  e : Nat
deriving DecidableEq

/-- Round function of SHA-1, selected by the round index. -/
def sha1F (i b c d : Nat) : Nat :=
  if i < 20 then (b &&& c) ||| (((pow32 - 1) ^^^ b) &&& d)
  else if i < 40 then b ^^^ c ^^^ d
  else if i < 60 then (b &&& c) ||| (b &&& d) ||| (c &&& d)
  else b ^^^ c ^^^ d

/-- Round constant of SHA-1, selected by the round index. -/
def sha1K (i : Nat) : Nat :=
  if i < 20 then 1518500249
  else if i < 40 then 1859775393
  else if i < 60 then 2400959708
  else 3395469782

/-- One SHA-1 round: `iw` is the pair of round index and schedule word. -/
def sha1Round (st : Sha1State) (iw : Nat × Nat) : Sha1State :=
  { a := (rotl32 5 st.a + sha1F iw.1 st.b st.c st.d + st.e + sha1K iw.1 + iw.2) % pow32
    b := st.a
    c := rotl32 30 st.b
    d := st.c
    e := st.d }

/-- Process one 64-byte block, updating the digest state. -/
def sha1Block (h : Sha1State) (block : List Nat) : Sha1State :=
  let ws := (sha1ExpandRev (bytesToWords block).reverse 64).reverse
  let f := ws.enum.foldl sha1Round h
  { a := (h.a + f.a) % pow32
    b := (h.b + f.b) % pow32
    c := (h.c + f.c) % pow32
    d := (h.d + f.d) % pow32
    e := (h.e + f.e) % pow32 }

/-- Initial SHA-1 digest state. -/
def sha1Init : Sha1State :=
  { a := 1732584193, b := 4023233417, c := 2562383102, d := 271733878, e := 3285377520 }

/-- Cut a byte list into 64-byte blocks; the first argument is fuel bounding
the number of blocks, always called with the length of the list. -/
def chunks64 : Nat → List Nat → List (List Nat)
  | 0, _ => []
  | _ + 1, [] => []
  | fuel + 1, l => l.take 64 :: chunks64 fuel (l.drop 64)

/-- Digest words of a byte message under SHA-1. -/
def sha1Words (msg : List Nat) : List Nat :=
  let padded := sha1Pad msg
  let final := (chunks64 padded.length padded).foldl sha1Block sha1Init
  [final.a, final.b, final.c, final.d, final.e]

/-- Lower-case hexadecimal digit for a value below 16. -/
def hexDigit (n : Nat) : Char :=
  if n < 10 then Char.ofNat (48 + n) else Char.ofNat (87 + n % 16)

/-- Eight hex characters of a 32-bit word, most significant first. -/
def hex8 (w : Nat) : List Char :=
  (List.range 8).map (fun i => hexDigit ((w >>> (28 - 4 * i)) % 16))

/-- Hex characters of a list of 32-bit words. -/
def hexWords : List Nat → List Char
  | [] => []
  | w :: ws => hex8 w ++ hexWords ws

/-- Modelled from the spec: `clony.core.objects.calculate_sha1_hash`, the
Content Addresser of section 4.1 - the SHA-1 hexadecimal digest of a byte
string. -/
def calculate_sha1_hash (content : List Nat) : String :=
  String.mk (hexWords (sha1Words content))

/-! ## Object Codec

Modelled from the spec: `clony.core.objects.compress_content` and its
inverse are not in the available source tree.  Section 4.2 of the spec
fixes only that compression is lossless with `decompress (compress x) = x`
for every `x` and leaves the algorithm an implementation choice; the codec
is modelled as an executable byte run-length code (runs capped at 255). -/

/-- Run-length pairs (count, byte) of a byte list, counts between 1 and 255. -/
def rleEncode : List Nat → List (Nat × Nat)
  | [] => []
  | b :: rest =>
    match rleEncode rest with
    | (c, b2) :: t => if b2 = b ∧ c < 255 then (c + 1, b) :: t else (1, b) :: (c, b2) :: t
    | [] => [(1, b)]

/-- Flatten run-length pairs into a byte stream. -/
def encodePairs : List (Nat × Nat) → List Nat
  | [] => []
  | (c, b) :: t => c :: b :: encodePairs t

/-- Expand run-length pairs back into the original bytes. -/
def decodePairs : List (Nat × Nat) → List Nat
  | [] => []
  | (c, b) :: t => List.replicate c b ++ decodePairs t

/-- Modelled from the spec: the compressor of the Object Codec (section 4.2). -/
def compress_content (content : List Nat) : List Nat :=
  encodePairs (rleEncode content)

/-- Modelled from the spec: the decompressor of the Object Codec, reading a
count byte and a value byte at a time. -/
def decompress_content : List Nat → List Nat
  | c :: b :: rest => List.replicate c b ++ decompress_content rest
  | _ => []

/-! ## Object Store

Modelled from the spec: `clony.core.objects.write_object_file` is not in
the available source tree.  Section 4.3 of the spec and the test
`test_write_object_file` fix the framing, the identifier, the two-level
path fan-out under the store directory, and idempotence on existing
identifiers. -/

/-- Code points of a text payload taken as bytes; the payloads in this
development are ASCII, where this agrees with the UTF-8 encoding the
source applies. -/
def strBytes (s : String) : List Nat :=
  s.data.map Char.toNat

/-- Framed bytes of an object: the type tag, a space, the decimal payload
length, a zero byte, then the payload. -/
def frame_bytes (objType : String) (payload : List Nat) : List Nat :=
  strBytes (objType ++ " " ++ toString payload.length) ++ [0] ++ payload

/-- Storage path of an object: two-level fan-out under the store directory,
first two hex characters as the directory, remaining characters as the
file name. -/
def object_path (hash : String) : String :=
  ".git/objects/" ++ hash.take 2 ++ "/" ++ hash.drop 2

/-! ## Repository state

The on-disk repository state visible to the commit flow: the HEAD file,
the branch reference files, the object files and the index file.  The
`trace` field instruments the state with the order in which the mutating
operations ran; every mutating operation appends its event. -/

/-- Observable filesystem events of the commit flow, in execution order. -/
inductive Event where
  | objectWritten
  | branchRefUpdated
  | headFileWritten
  | stagingCleared
deriving DecidableEq

/-- On-disk state of a repository as seen by the commit flow. -/
structure GitState where
  /-- Text content of the `.git/HEAD` file. -/
  headContent : String
  /-- Branch reference files: reference name to stored commit identifier. -/
  refs : List (String × String)
  /-- Object files: storage path to stored (compressed) bytes. -/
  objects : List (String × List Nat)
  /-- Content of the `.git/index` file, `none` when the file is absent. -/
  indexFile : Option String
  /-- Order of the mutating operations performed so far. -/
  trace : List Event
deriving DecidableEq

/-- Modelled from the spec: `clony.core.objects.write_object_file` (section
4.3) - frame and compress the payload, compute its identifier, store it
under the fan-out path; a no-op when the identifier already exists. -/
def write_object_file (st : GitState) (content : List Nat) (objType : String) :
    String × GitState :=
  let framed := frame_bytes objType content
  let hash := calculate_sha1_hash framed
  let path := object_path hash
  if (lookupD st.objects path).isSome then (hash, st)
  else
    (hash, { st with
              objects := st.objects ++ [(path, compress_content framed)]
              trace := st.trace ++ [Event.objectWritten] })

/-! ## Reference Resolver

Modelled from the spec: `clony.core.refs` is not in the available source
tree.  Section 4.6 and section 6 of the spec fix the HEAD file as either a
symbolic pointer string to a branch path or a raw commit identifier, and
`advance` as overwriting the named reference (or HEAD when detached). -/

/-- Reference named by a HEAD file content: the branch path after the
symbolic-pointer marker when attached, the raw content (a commit
identifier) when detached. -/
def head_ref_of_content (content : String) : String :=
  let t := trimChars content.data
  if ("ref: ".data).isPrefixOf t then String.mk (trimChars (t.drop 5)) else String.mk t

/-- Modelled from the spec: `clony.core.refs.get_head_ref`, reading the HEAD
file of the repository. -/
def get_head_ref (st : GitState) : String :=
  head_ref_of_content st.headContent

/-- Modelled from the spec: `clony.core.refs.get_head_commit` - resolve HEAD
through the named branch when attached (`none` when the branch file does
not exist yet), or to the stored identifier directly when detached. -/
def get_head_commit (st : GitState) : Option String :=
  let r := get_head_ref st
  if strStartsWith r "refs/" then lookupD st.refs r else some r

/-- Modelled from the spec: `clony.core.refs.update_ref`, overwriting the
stored commit identifier of a named reference. -/
def update_ref (st : GitState) (ref hash : String) : GitState :=
  { st with
      refs := dictInsert st.refs ref hash
      trace := st.trace ++ [Event.branchRefUpdated] }

/-- Overwrite the HEAD file with the commit identifier and a newline, the
detached-HEAD branch written inline in `make_commit`
(`src/clony/internals/commit.py`). -/
def write_head_detached (st : GitState) (hash : String) : GitState :=
  { st with
      headContent := hash ++ "\n"
      trace := st.trace ++ [Event.headFileWritten] }

/-- Modelled from the spec: `clony.internals.staging.clear_staging_area` -
after it runs the index file still exists but holds no entries (test
`test_commit_clears_staging_area`). -/
def clear_staging_area (st : GitState) : GitState :=
  { st with
      indexFile := some ""
      trace := st.trace ++ [Event.stagingCleared] }

/-! ## Commit Builder

Modelled from the spec: `clony.core.objects.create_commit_object` is not in
the available source tree.  Section 3 and section 4.5 of the spec fix the
payload as a text block with, in order, a tree line, zero or one parent
line, an author line, a committer line, a blank line, then the message. -/

/-- Header lines of a commit payload, in order: tree, optional parent,
author, committer. -/
def commit_header_lines (treeHash : String) (parentHash : Option String)
    (authorName authorEmail : String) (timestamp : Nat) : List String :=
  ["tree " ++ treeHash]
    ++ (match parentHash with
        | some p => ["parent " ++ p]
        | none => [])
    ++ ["author " ++ (authorName ++ " <" ++ authorEmail ++ "> " ++ toString timestamp),
        "committer " ++ (authorName ++ " <" ++ authorEmail ++ "> " ++ toString timestamp)]

/-- Full text payload of a commit object: the header lines, a blank line,
then the free-form message. -/
def commit_payload (treeHash : String) (parentHash : Option String)
    (authorName authorEmail : String) (timestamp : Nat) (message : String) : String :=
  String.intercalate "\n" (commit_header_lines treeHash parentHash authorName authorEmail timestamp)
    ++ "\n\n" ++ message ++ "\n"

/-- Modelled from the spec: `clony.core.objects.create_commit_object`
(section 4.5) - build the commit payload and write it through the Object
Store, returning the commit identifier. -/
def create_commit_object (st : GitState) (treeHash : String) (parentHash : Option String)
    (authorName authorEmail message : String) (timestamp : Nat) : String × GitState :=
  write_object_file st
    (strBytes (commit_payload treeHash parentHash authorName authorEmail timestamp message))
    "commit"

/-! ## The commit flow (translated from `src/clony/internals/commit.py`)

`make_commit` calls `create_tree_object` and `create_commit_object` from
the absent `clony.core.objects` module.  They are passed in as collaborator
parameters: each takes the current state and returns the new state together
with either a result hash or the message of a raised exception.  The
`find_git_repo_path` collaborator is passed in as the Bool `repoFound`. -/

/-- Collaborator signature of `create_tree_object` as used by `make_commit`:
mutate the store and either return the root tree hash or raise. -/
def TreeBuilder : Type := GitState → GitState × Except String String

/-- Collaborator signature of `create_commit_object` as used by
`make_commit`: arguments are tree hash, parent hash, author name, author
email and message, in source order. -/
def CommitBuilder : Type :=
  GitState → String → Option String → String → String → String → GitState × Except String String

/-- The concrete modelled commit builder at a fixed timestamp; it never
raises. -/
def realCommitBuilder (timestamp : Nat) : CommitBuilder :=
  fun st treeHash parentHash authorName authorEmail message =>
    let r := create_commit_object st treeHash parentHash authorName authorEmail message timestamp
    (r.2, Except.ok r.1)

/-- Fatal exit conditions of `make_commit`, one per `sys.exit(1)` site. -/
inductive CommitError where
  | repositoryNotFound
  | nothingStaged
  | commitFailed (msg : String)
deriving DecidableEq

/-- Outcome of `make_commit`: the returned commit hash, or the fatal exit
taken (the Python code logs an error and calls `sys.exit(1)`). -/
inductive CommitResult where
  | success (commitHash : String)
  | failure (err : CommitError)
deriving DecidableEq

/-- Embedding of `clony.internals.commit.make_commit`.  Checks the
repository and the staged changes, builds the tree, resolves the head
commit as parent, builds the commit, advances the branch reference (or
HEAD when detached), then clears the staging area. -/
def make_commit (tb : TreeBuilder) (cb : CommitBuilder) (repoFound : Bool) (st : GitState)
    (message authorName authorEmail : String) : CommitResult × GitState :=
  if !repoFound then (CommitResult.failure CommitError.repositoryNotFound, st)
  else if st.indexFile.isNone then (CommitResult.failure CommitError.nothingStaged, st)
  else if read_index_file st.indexFile = [] then
    (CommitResult.failure CommitError.nothingStaged, st)
  else
    match tb st with
    | (st1, Except.error e) => (CommitResult.failure (CommitError.commitFailed e), st1)
    | (st1, Except.ok treeHash) =>
      let parentHash := get_head_commit st1
      match cb st1 treeHash parentHash authorName authorEmail message with
      | (st2, Except.error e) => (CommitResult.failure (CommitError.commitFailed e), st2)
      | (st2, Except.ok commitHash) =>
        let headRef := get_head_ref st2
        let st3 :=
          if strStartsWith headRef "refs/" then update_ref st2 headRef commitHash
          else write_head_detached st2 commitHash
        let st4 := clear_staging_area st3
        (CommitResult.success commitHash, st4)

/-! ## Digest sanity checks

The two digests below agree with the Python `hashlib.sha1` values the
tests `test_calculate_sha1_hash` and `test_write_object_file` compute. -/

set_option maxRecDepth 10000 in
theorem sha1_digest_abc :
    calculate_sha1_hash [97, 98, 99] = "a9993e364706816aba3e25717850c26c9cd0d89d" := by
  decide

set_option maxRecDepth 10000 in
theorem sha1_digest_framed_blob :
    calculate_sha1_hash (frame_bytes "blob" (strBytes "test content")) =
      "08cf6101416f0ce0dda3c80e627f333854c4085c" := by
  decide

/-! ## Codec lemmas -/

theorem decompress_encodePairs (l : List (Nat × Nat)) :
    decompress_content (encodePairs l) = decodePairs l := by
  induction l with
  | nil => rfl
  | cons q t ih =>
    obtain ⟨c, b⟩ := q
    simp only [encodePairs, decompress_content, decodePairs, ih]

theorem decodePairs_rleEncode (p : List Nat) : decodePairs (rleEncode p) = p := by
  induction p with
  | nil => rfl
  | cons b rest ih =>
    simp only [rleEncode]
    cases hr : rleEncode rest with
    | nil =>
      rw [hr] at ih
      simp only [decodePairs] at ih
      simp [decodePairs, ← ih]
    | cons q t =>
      obtain ⟨c, b2⟩ := q
      rw [hr] at ih
      dsimp only
      by_cases hcb : b2 = b ∧ c < 255
      · rw [if_pos hcb]
        obtain ⟨hb, _⟩ := hcb
        subst hb
        simp only [decodePairs, List.replicate_succ, List.cons_append] at ih ⊢
        rw [ih]
      · rw [if_neg hcb]
        simp only [decodePairs] at ih ⊢
        rw [ih]
        simp

/-! ## Index-file lemmas -/

theorem indexStep_eq_parse (d : List (String × String)) (line : String) :
    indexStep d line =
      match parseIndexLine line with
      | some p => dictInsert d p.1 p.2
      | none => d := by
  unfold indexStep parseIndexLine
  rcases pyTokens (trimChars line.data) with _ | ⟨a, _ | ⟨b, _ | ⟨c, r⟩⟩⟩ <;> rfl

theorem foldl_indexStep_eq (lines : List String) :
    ∀ d, lines.foldl indexStep d =
      (lines.filterMap parseIndexLine).foldl (fun d p => dictInsert d p.1 p.2) d := by
  induction lines with
  | nil => intro d; rfl
  | cons line rest ih =>
    intro d
    rw [List.foldl_cons, List.filterMap_cons, indexStep_eq_parse]
    cases hp : parseIndexLine line with
    | none => simp only [ih]
    | some q => simp only [List.foldl_cons, ih]

theorem read_index_file_eq_buildDict (content : String) :
    read_index_file (some content) = buildDict (parsedPairs content) := by
  unfold read_index_file buildDict parsedPairs
  exact foldl_indexStep_eq (linesOf content) []

theorem read_index_file_lookup_last (content : String) (k : String) :
    lookupD (read_index_file (some content)) k =
      ((parsedPairs content).reverse.find? (fun p => p.1 = k)).map (fun p => p.2) := by
  rw [read_index_file_eq_buildDict]
  unfold buildDict
  rw [lookupD_foldl_dictInsert, lookupD_nil, Option.or_none]

/-! ## `make_commit` run lemmas -/

/-- Tree builders that touch neither HEAD nor the branch references - the
spec (section 4.4) has the Tree Builder write only blob and tree objects. -/
def TreeBuilderQuiet (tb : TreeBuilder) : Prop :=
  ∀ st, ((tb st).1).headContent = st.headContent ∧ ((tb st).1).refs = st.refs

/-- Commit builders that touch neither HEAD nor the branch references - the
spec (section 4.5) has the Commit Builder write only the commit object. -/
def CommitBuilderQuiet (cb : CommitBuilder) : Prop :=
  ∀ st tH pH an ae m,
    ((cb st tH pH an ae m).1).headContent = st.headContent ∧
    ((cb st tH pH an ae m).1).refs = st.refs

theorem make_commit_staged_checks (tb : TreeBuilder) (cb : CommitBuilder) (st : GitState)
    (m an ae : String) (h1 : st.indexFile.isNone = false)
    (h2 : read_index_file st.indexFile ≠ []) :
    make_commit tb cb true st m an ae =
      (match tb st with
       | (st1, Except.error e) => (CommitResult.failure (CommitError.commitFailed e), st1)
       | (st1, Except.ok treeHash) =>
         match cb st1 treeHash (get_head_commit st1) an ae m with
         | (st2, Except.error e) => (CommitResult.failure (CommitError.commitFailed e), st2)
         | (st2, Except.ok commitHash) =>
           (CommitResult.success commitHash,
            clear_staging_area
              (if strStartsWith (get_head_ref st2) "refs/" then
                 update_ref st2 (get_head_ref st2) commitHash
               else write_head_detached st2 commitHash))) := by
  unfold make_commit
  rw [if_neg (by simp), if_neg (by simp [h1]), if_neg h2]

theorem make_commit_tree_error_run (tb : TreeBuilder) (cb : CommitBuilder) (st st1 : GitState)
    (m an ae e : String) (h1 : st.indexFile.isNone = false)
    (h2 : read_index_file st.indexFile ≠ [])
    (htb : tb st = (st1, Except.error e)) :
    make_commit tb cb true st m an ae =
      (CommitResult.failure (CommitError.commitFailed e), st1) := by
  rw [make_commit_staged_checks tb cb st m an ae h1 h2, htb]

theorem make_commit_commit_error_run (tb : TreeBuilder) (cb : CommitBuilder)
    (st st1 st2 : GitState) (m an ae tH e : String) (h1 : st.indexFile.isNone = false)
    (h2 : read_index_file st.indexFile ≠ [])
    (htb : tb st = (st1, Except.ok tH))
    (hcb : cb st1 tH (get_head_commit st1) an ae m = (st2, Except.error e)) :
    make_commit tb cb true st m an ae =
      (CommitResult.failure (CommitError.commitFailed e), st2) := by
  rw [make_commit_staged_checks tb cb st m an ae h1 h2, htb]
  dsimp only
  rw [hcb]

theorem make_commit_success_run (tb : TreeBuilder) (cb : CommitBuilder)
    (st st1 st2 : GitState) (m an ae tH cH : String) (h1 : st.indexFile.isNone = false)
    (h2 : read_index_file st.indexFile ≠ [])
    (htb : tb st = (st1, Except.ok tH))
    (hcb : cb st1 tH (get_head_commit st1) an ae m = (st2, Except.ok cH)) :
    make_commit tb cb true st m an ae =
      (CommitResult.success cH,
       clear_staging_area
         (if strStartsWith (get_head_ref st2) "refs/" then update_ref st2 (get_head_ref st2) cH
          else write_head_detached st2 cH)) := by
  rw [make_commit_staged_checks tb cb st m an ae h1 h2, htb]
  dsimp only
  rw [hcb]

theorem make_commit_nothing_staged_run (tb : TreeBuilder) (cb : CommitBuilder)
    (st : GitState) (m an ae : String)
    (h : st.indexFile.isNone = true ∨ read_index_file st.indexFile = []) :
    make_commit tb cb true st m an ae =
      (CommitResult.failure CommitError.nothingStaged, st) := by
  unfold make_commit
  rw [if_neg (by simp)]
  rcases h with h | h
  · rw [if_pos h]
  · by_cases hn : st.indexFile.isNone = true
    · rw [if_pos hn]
    · rw [if_neg hn, if_pos h]

theorem make_commit_success_inv (tb : TreeBuilder) (cb : CommitBuilder) (st st' : GitState)
    (m an ae ch : String)
    (hsucc : make_commit tb cb true st m an ae = (CommitResult.success ch, st')) :
    st.indexFile.isNone = false ∧ read_index_file st.indexFile ≠ [] ∧
    ∃ st1 tH st2,
      tb st = (st1, Except.ok tH) ∧
      cb st1 tH (get_head_commit st1) an ae m = (st2, Except.ok ch) ∧
      st' = clear_staging_area
        (if strStartsWith (get_head_ref st2) "refs/" then update_ref st2 (get_head_ref st2) ch
         else write_head_detached st2 ch) := by
  have h1f : st.indexFile.isNone = false := by
    cases hn : st.indexFile.isNone
    · rfl
    · rw [make_commit_nothing_staged_run tb cb st m an ae (Or.inl hn)] at hsucc
      exact absurd (congrArg Prod.fst hsucc) (by simp)
  have h2 : read_index_file st.indexFile ≠ [] := by
    intro hemp
    rw [make_commit_nothing_staged_run tb cb st m an ae (Or.inr hemp)] at hsucc
    exact absurd (congrArg Prod.fst hsucc) (by simp)
  refine ⟨h1f, h2, ?_⟩
  rcases htb : tb st with ⟨st1, tr⟩
  cases tr with
  | error e =>
    rw [make_commit_tree_error_run tb cb st st1 m an ae e h1f h2 htb] at hsucc
    exact absurd (congrArg Prod.fst hsucc) (by simp)
  | ok tH =>
    rcases hcb : cb st1 tH (get_head_commit st1) an ae m with ⟨st2, cr⟩
    cases cr with
    | error e =>
      rw [make_commit_commit_error_run tb cb st st1 st2 m an ae tH e h1f h2 htb hcb] at hsucc
      exact absurd (congrArg Prod.fst hsucc) (by simp)
    | ok cH =>
      rw [make_commit_success_run tb cb st st1 st2 m an ae tH cH h1f h2 htb hcb] at hsucc
      simp only [Prod.mk.injEq, CommitResult.success.injEq] at hsucc
      obtain ⟨hch, hst⟩ := hsucc
      subst hch
      exact ⟨st1, tH, st2, rfl, hcb, hst.symm⟩

/-! ## Further shared lemmas -/

theorem lookupD_append_singleton {α : Type} (d : List (String × α)) (k : String) (v : α)
    (h : lookupD d k = none) : lookupD (d ++ [(k, v)]) k = some v := by
  unfold lookupD at h ⊢
  rw [List.find?_append]
  have hf : d.find? (fun p => p.1 = k) = none := Option.map_eq_none'.mp h
  rw [hf]
  simp [List.find?]

theorem get_head_ref_congr (s t : GitState) (hh : s.headContent = t.headContent) :
    get_head_ref s = get_head_ref t := by
  unfold get_head_ref
  rw [hh]

theorem get_head_commit_congr (s t : GitState) (hh : s.headContent = t.headContent)
    (hr : s.refs = t.refs) : get_head_commit s = get_head_commit t := by
  unfold get_head_commit get_head_ref
  rw [hh, hr]

theorem append_head_ne (a b x y : String) (ca cb2 : Char) (la lb : List Char)
    (ha : a.data = ca :: la) (hb : b.data = cb2 :: lb) (hne : ca ≠ cb2) :
    a ++ x ≠ b ++ y := by
  intro h
  have hd := congrArg String.data h
  rw [String.data_append, String.data_append, ha, hb, List.cons_append,
    List.cons_append] at hd
  exact hne (List.cons_eq_cons.mp hd).1

/-- Equation for a fresh write through the Object Store: the identifier is
the SHA-1 of the framed bytes and the state gains exactly the compressed
framed object at the fan-out path. -/
theorem write_object_file_fresh (st : GitState) (content : List Nat) (objType : String)
    (hfresh : lookupD st.objects
      (object_path (calculate_sha1_hash (frame_bytes objType content))) = none) :
    write_object_file st content objType =
      (calculate_sha1_hash (frame_bytes objType content),
       { st with
          objects := st.objects ++
            [(object_path (calculate_sha1_hash (frame_bytes objType content)),
              compress_content (frame_bytes objType content))]
          trace := st.trace ++ [Event.objectWritten] }) := by
  simp only [write_object_file]
  rw [hfresh]
  rfl

/-! ## Concrete states and collaborators used by the witnesses -/

/-- Tree builder that writes nothing and returns a fixed tree hash. -/
def tbOk : TreeBuilder := fun st => (st, Except.ok "treehash0")

/-- Tree builder that raises with a fixed message. -/
def tbBoom : TreeBuilder := fun st => (st, Except.error "boom")

/-- Commit builder that writes nothing and returns a fixed commit hash. -/
def cbOk : CommitBuilder := fun st _ _ _ _ _ => (st, Except.ok "commithash0")

/-- Fresh repository on branch main with one staged file. -/
def stAttached : GitState :=
  { headContent := "ref: refs/heads/main\n", refs := [], objects := [],
    indexFile := some "a.txt 1234\n", trace := [] }

/-- State produced by a successful commit of `stAttached` through `tbOk`
and `cbOk`. -/
def stAttachedFinal : GitState :=
  { headContent := "ref: refs/heads/main\n", refs := [("refs/heads/main", "commithash0")],
    objects := [], indexFile := some "",
    trace := [Event.branchRefUpdated, Event.stagingCleared] }

/-- Repository with no index file at all. -/
def stNoIndex : GitState :=
  { headContent := "ref: refs/heads/main\n", refs := [], objects := [],
    indexFile := none, trace := [] }

/-! ## Claims -/

/-- C5: for every byte string `p`, including the empty byte string,
decompressing the result of compressing `p` yields exactly `p` - the
Object Codec is lossless and `decompress_content` inverts
`compress_content`. -/
theorem compress_roundtrip (p : List Nat) :
    decompress_content (compress_content p) = p := by
  unfold compress_content
  rw [decompress_encodePairs, decodePairs_rleEncode]

/-- C7: a commit operation with no repository context resolvable from the
working directory fails fatally with the repository-not-found condition
and performs no filesystem writes - the returned state is exactly the
input state, whatever the collaborators and the rest of the state are. -/
theorem commit_repository_not_found (tb : TreeBuilder) (cb : CommitBuilder) (st : GitState)
    (m an ae : String) :
    make_commit tb cb false st m an ae =
      (CommitResult.failure CommitError.repositoryNotFound, st) := rfl

/-- C6: a commit operation on a found repository whose staging mapping is
absent, or parses to an empty mapping (in particular an empty index file),
fails fatally with the nothing-staged condition and performs no filesystem
writes - the returned state is exactly the input state. -/
theorem commit_nothing_staged (tb : TreeBuilder) (cb : CommitBuilder) (st : GitState)
    (m an ae : String)
    (h : st.indexFile = none ∨ read_index_file st.indexFile = []) :
    make_commit tb cb true st m an ae =
      (CommitResult.failure CommitError.nothingStaged, st) := by
  apply make_commit_nothing_staged_run
  rcases h with h | h
  · exact Or.inl (by rw [h]; rfl)
  · exact Or.inr h

/-- Witness for C6 at a concrete repository with no index file. -/
theorem commit_nothing_staged_witness :
    (stNoIndex.indexFile = none ∨ read_index_file stNoIndex.indexFile = []) ∧
    make_commit tbOk cbOk true stNoIndex "m" "n" "e" =
      (CommitResult.failure CommitError.nothingStaged, stNoIndex) :=
  ⟨Or.inl rfl, commit_nothing_staged tbOk cbOk stNoIndex "m" "n" "e" (Or.inl rfl)⟩

/-- C8: for every index-file text, `read_index_file` returns the dictionary
built from exactly the lines whose `strip().split()` yields exactly two
whitespace-separated tokens, binding the first token to the second; every
line with fewer or more than two tokens is ignored. -/
theorem read_index_two_token_lines (content : String) :
    read_index_file (some content) = buildDict (parsedPairs content) :=
  read_index_file_eq_buildDict content

/-- C10: for every index-file text and path, looking the path up in the
result of `read_index_file` yields the hash of the last well-formed
(two-token) line for that path - later lines overwrite earlier entries. -/
theorem read_index_last_wins (content : String) (k : String) :
    lookupD (read_index_file (some content)) k =
      ((parsedPairs content).reverse.find? (fun p => p.1 = k)).map (fun p => p.2) :=
  read_index_file_lookup_last content k

/-- C4: for every payload and every type among blob, tree and commit,
writing an object returns the identifier equal to the SHA-1 hexadecimal
digest of the framed bytes (type, space, decimal length, zero byte,
payload), and when the object is new the store afterwards holds, at the
two-level fan-out path under the store directory, exactly the compressed
framed bytes. -/
theorem write_object_spec (st : GitState) (payload : List Nat) (objType : String)
    (ht : objType = "blob" ∨ objType = "tree" ∨ objType = "commit")
    (hfresh : lookupD st.objects
      (object_path (calculate_sha1_hash (frame_bytes objType payload))) = none) :
    (write_object_file st payload objType).1 =
      calculate_sha1_hash (frame_bytes objType payload) ∧
    lookupD ((write_object_file st payload objType).2).objects
        (object_path (calculate_sha1_hash (frame_bytes objType payload))) =
      some (compress_content (frame_bytes objType payload)) := by
  rw [write_object_file_fresh st payload objType hfresh]
  exact ⟨rfl, lookupD_append_singleton st.objects _ _ hfresh⟩

/-- Witness for C4 at the blob payload used by `test_write_object_file`. -/
theorem write_object_spec_witness :
    (write_object_file stAttached (strBytes "test content") "blob").1 =
      calculate_sha1_hash (frame_bytes "blob" (strBytes "test content")) ∧
    lookupD ((write_object_file stAttached (strBytes "test content") "blob").2).objects
        (object_path (calculate_sha1_hash (frame_bytes "blob" (strBytes "test content")))) =
      some (compress_content (frame_bytes "blob" (strBytes "test content"))) :=
  write_object_spec stAttached (strBytes "test content") "blob" (Or.inl rfl) rfl

/-- C1: after a successful commit, when HEAD named a branch (the head ref
string starts with "refs/") the branch reference stores the new commit
identifier and the HEAD file is unchanged; when HEAD was detached, the
HEAD file now holds the new commit identifier (as the single line the
writer produces).  The tree and commit builders are assumed to leave HEAD
and the branch references alone, as sections 4.4 and 4.5 of the spec
prescribe. -/
theorem commit_ref_advancement (tb : TreeBuilder) (cb : CommitBuilder) (st st' : GitState)
    (m an ae ch : String) (htb : TreeBuilderQuiet tb) (hcb : CommitBuilderQuiet cb)
    (hsucc : make_commit tb cb true st m an ae = (CommitResult.success ch, st')) :
    (strStartsWith (get_head_ref st) "refs/" = true →
       lookupD st'.refs (get_head_ref st) = some ch ∧
       st'.headContent = st.headContent) ∧
    (strStartsWith (get_head_ref st) "refs/" = false →
       st'.headContent = ch ++ "\n") := by
  obtain ⟨h1, h2, st1, tH, st2, htb1, hcb1, hst⟩ :=
    make_commit_success_inv tb cb st st' m an ae ch hsucc
  have hh1 : st1.headContent = st.headContent := by
    have h := (htb st).1; rw [htb1] at h; exact h
  have hr1 : st1.refs = st.refs := by
    have h := (htb st).2; rw [htb1] at h; exact h
  have hh2 : st2.headContent = st1.headContent := by
    have h := (hcb st1 tH (get_head_commit st1) an ae m).1; rw [hcb1] at h; exact h
  have hr2 : st2.refs = st1.refs := by
    have h := (hcb st1 tH (get_head_commit st1) an ae m).2; rw [hcb1] at h; exact h
  have hgr : get_head_ref st2 = get_head_ref st :=
    get_head_ref_congr st2 st (hh2.trans hh1)
  rw [hgr] at hst
  constructor
  · intro hs
    rw [hst, if_pos hs]
    constructor
    · show lookupD (dictInsert st2.refs (get_head_ref st) ch) (get_head_ref st) = some ch
      rw [lookupD_dictInsert, if_pos rfl]
    · show st2.headContent = st.headContent
      exact hh2.trans hh1
  · intro hs
    rw [hst, if_neg (by simp [hs])]
    rfl

/-- Witness for C1 on the attached-HEAD repository `stAttached`. -/
theorem commit_ref_advancement_witness :
    (strStartsWith (get_head_ref stAttached) "refs/" = true →
       lookupD stAttachedFinal.refs (get_head_ref stAttached) = some "commithash0" ∧
       stAttachedFinal.headContent = stAttached.headContent) ∧
    (strStartsWith (get_head_ref stAttached) "refs/" = false →
       stAttachedFinal.headContent = "commithash0" ++ "\n") :=
  commit_ref_advancement tbOk cbOk stAttached stAttachedFinal "m" "n" "e" "commithash0"
    (fun _ => ⟨rfl, rfl⟩) (fun _ _ _ _ _ _ => ⟨rfl, rfl⟩) (by decide)

/-- C9: after every successful commit the staging mapping is cleared - the
index file exists with empty content and parses to the empty mapping - and
the clearing event comes last in the trace, immediately after the
reference-advance event (branch update or detached HEAD write). -/
theorem commit_clears_staging_last (tb : TreeBuilder) (cb : CommitBuilder) (st st' : GitState)
    (m an ae ch : String)
    (hsucc : make_commit tb cb true st m an ae = (CommitResult.success ch, st')) :
    st'.indexFile = some "" ∧ read_index_file st'.indexFile = [] ∧
    ∃ pre ev, st'.trace = pre ++ [ev, Event.stagingCleared] ∧
      (ev = Event.branchRefUpdated ∨ ev = Event.headFileWritten) := by
  obtain ⟨h1, h2, st1, tH, st2, htb1, hcb1, hst⟩ :=
    make_commit_success_inv tb cb st st' m an ae ch hsucc
  subst hst
  refine ⟨rfl, by rfl, ?_⟩
  by_cases hs : strStartsWith (get_head_ref st2) "refs/" = true
  · refine ⟨st2.trace, Event.branchRefUpdated, ?_, Or.inl rfl⟩
    rw [if_pos hs]
    show (st2.trace ++ [Event.branchRefUpdated]) ++ [Event.stagingCleared] = _
    rw [List.append_assoc]
    rfl
  · refine ⟨st2.trace, Event.headFileWritten, ?_, Or.inr rfl⟩
    rw [if_neg hs]
    show (st2.trace ++ [Event.headFileWritten]) ++ [Event.stagingCleared] = _
    rw [List.append_assoc]
    rfl

/-- Witness for C9 on the attached-HEAD repository `stAttached`. -/
theorem commit_clears_staging_last_witness :
    stAttachedFinal.indexFile = some "" ∧
    read_index_file stAttachedFinal.indexFile = [] ∧
    ∃ pre ev, stAttachedFinal.trace = pre ++ [ev, Event.stagingCleared] ∧
      (ev = Event.branchRefUpdated ∨ ev = Event.headFileWritten) :=
  commit_clears_staging_last tbOk cbOk stAttached stAttachedFinal "m" "n" "e" "commithash0"
    (by decide)

/-- C2: when an exception is raised during the committing state before the
reference-advance step - in the tree builder or in the commit builder -
the commit operation surfaces the fatal commit-failed condition carrying
the causal message, and neither the branch references nor HEAD change.
The builders are assumed to leave HEAD and the branch references alone, as
sections 4.4 and 4.5 of the spec prescribe. -/
theorem commit_failure_no_ref_update (tb : TreeBuilder) (cb : CommitBuilder) (st : GitState)
    (m an ae e : String) (htb : TreeBuilderQuiet tb) (hcb : CommitBuilderQuiet cb)
    (h1 : st.indexFile.isNone = false) (h2 : read_index_file st.indexFile ≠ [])
    (hfail : (tb st).2 = Except.error e ∨
       ∃ st1 tH, tb st = (st1, Except.ok tH) ∧
         (cb st1 tH (get_head_commit st1) an ae m).2 = Except.error e) :
    ∃ st', make_commit tb cb true st m an ae =
        (CommitResult.failure (CommitError.commitFailed e), st') ∧
      st'.refs = st.refs ∧ st'.headContent = st.headContent := by
  rcases hfail with hf | ⟨st1, tH, htb1, hf⟩
  · rcases hp : tb st with ⟨st1, tr⟩
    rw [hp] at hf
    have htr : tr = Except.error e := hf
    subst htr
    refine ⟨st1, make_commit_tree_error_run tb cb st st1 m an ae e h1 h2 hp, ?_, ?_⟩
    · have h := (htb st).2; rw [hp] at h; exact h
    · have h := (htb st).1; rw [hp] at h; exact h
  · rcases hp : cb st1 tH (get_head_commit st1) an ae m with ⟨st2, cr⟩
    rw [hp] at hf
    have hcr : cr = Except.error e := hf
    subst hcr
    have hh1 : st1.headContent = st.headContent := by
      have h := (htb st).1; rw [htb1] at h; exact h
    have hr1 : st1.refs = st.refs := by
      have h := (htb st).2; rw [htb1] at h; exact h
    have hh2 : st2.headContent = st1.headContent := by
      have h := (hcb st1 tH (get_head_commit st1) an ae m).1; rw [hp] at h; exact h
    have hr2 : st2.refs = st1.refs := by
      have h := (hcb st1 tH (get_head_commit st1) an ae m).2; rw [hp] at h; exact h
    exact ⟨st2, make_commit_commit_error_run tb cb st st1 st2 m an ae tH e h1 h2 htb1 hp,
      hr2.trans hr1, hh2.trans hh1⟩

/-- Witness for C2 with a tree builder that raises. -/
theorem commit_failure_no_ref_update_witness :
    ∃ st', make_commit tbBoom cbOk true stAttached "m" "n" "e" =
        (CommitResult.failure (CommitError.commitFailed "boom"), st') ∧
      st'.refs = stAttached.refs ∧ st'.headContent = stAttached.headContent :=
  commit_failure_no_ref_update tbBoom cbOk stAttached "m" "n" "e" "boom"
    (fun _ => ⟨rfl, rfl⟩) (fun _ _ _ _ _ _ => ⟨rfl, rfl⟩) rfl (by decide) (Or.inl rfl)

/-- C3: a commit built while a head commit is resolvable carries exactly a
parent header line with that head commit identifier (the head at the time
of the call, the tree builder leaving HEAD and the references alone), and
a first commit - no head commit resolvable - carries no parent line; the
stored commit object holds exactly the compressed framed payload built
from these header lines. -/
theorem commit_parent_line (tb : TreeBuilder) (st st1 : GitState)
    (m an ae tH : String) (ts : Nat) (htb : TreeBuilderQuiet tb)
    (h1 : st.indexFile.isNone = false) (h2 : read_index_file st.indexFile ≠ [])
    (htree : tb st = (st1, Except.ok tH))
    (hfresh : lookupD st1.objects (object_path (calculate_sha1_hash (frame_bytes "commit"
      (strBytes (commit_payload tH (get_head_commit st) an ae ts m))))) = none) :
    ∃ st',
      make_commit tb (realCommitBuilder ts) true st m an ae =
        (CommitResult.success (calculate_sha1_hash (frame_bytes "commit"
          (strBytes (commit_payload tH (get_head_commit st) an ae ts m)))), st') ∧
      lookupD st'.objects (object_path (calculate_sha1_hash (frame_bytes "commit"
          (strBytes (commit_payload tH (get_head_commit st) an ae ts m))))) =
        some (compress_content (frame_bytes "commit"
          (strBytes (commit_payload tH (get_head_commit st) an ae ts m)))) ∧
      (∀ p, get_head_commit st = some p →
         ("parent " ++ p) ∈ commit_header_lines tH (get_head_commit st) an ae ts) ∧
      (get_head_commit st = none →
         ∀ q, ("parent " ++ q) ∉ commit_header_lines tH (get_head_commit st) an ae ts) := by
  have hh1 : st1.headContent = st.headContent := by
    have h := (htb st).1; rw [htree] at h; exact h
  have hr1 : st1.refs = st.refs := by
    have h := (htb st).2; rw [htree] at h; exact h
  have hpc : get_head_commit st1 = get_head_commit st :=
    get_head_commit_congr st1 st hh1 hr1
  have hwrite := write_object_file_fresh st1
    (strBytes (commit_payload tH (get_head_commit st) an ae ts m)) "commit" hfresh
  have hcbeq : realCommitBuilder ts st1 tH (get_head_commit st1) an ae m =
      ({ st1 with
          objects := st1.objects ++
            [(object_path (calculate_sha1_hash (frame_bytes "commit"
                (strBytes (commit_payload tH (get_head_commit st) an ae ts m)))),
              compress_content (frame_bytes "commit"
                (strBytes (commit_payload tH (get_head_commit st) an ae ts m))))]
          trace := st1.trace ++ [Event.objectWritten] },
       Except.ok (calculate_sha1_hash (frame_bytes "commit"
         (strBytes (commit_payload tH (get_head_commit st) an ae ts m))))) := by
    simp only [realCommitBuilder, create_commit_object]
    rw [hpc, hwrite]
  have hrun := make_commit_success_run tb (realCommitBuilder ts) st st1 _ m an ae tH _
    h1 h2 htree hcbeq
  refine ⟨_, hrun, ?_, ?_, ?_⟩
  · have hobj : ∀ s : GitState, ∀ c : Bool, ∀ r h : String,
        (clear_staging_area (if c = true then update_ref s r h
          else write_head_detached s h)).objects = s.objects := by
      intro s c r h
      cases c
      · rfl
      · rfl
    rw [hobj]
    exact lookupD_append_singleton st1.objects _ _ hfresh
  · intro p hp
    rw [hp]
    simp [commit_header_lines]
  · intro hn q hmem
    rw [hn] at hmem
    simp only [commit_header_lines, List.nil_append, List.cons_append, List.mem_cons,
      List.mem_singleton, List.not_mem_nil, or_false] at hmem
    rcases hmem with h | h | h
    · exact append_head_ne "parent " "tree " q tH 'p' 't' _ _ rfl rfl (by decide) h
    · exact append_head_ne "parent " "author " q _ 'p' 'a' _ _ rfl rfl (by decide) h
    · exact append_head_ne "parent " "committer " q _ 'p' 'c' _ _ rfl rfl (by decide) h

/-- Witness for C3: a first commit (no head commit resolvable) on the
fresh repository `stAttached`. -/
theorem commit_parent_line_witness :
    ∃ st',
      make_commit tbOk (realCommitBuilder 0) true stAttached "m" "n" "e" =
        (CommitResult.success (calculate_sha1_hash (frame_bytes "commit"
          (strBytes (commit_payload "treehash0" (get_head_commit stAttached) "n" "e" 0 "m")))),
         st') ∧
      lookupD st'.objects (object_path (calculate_sha1_hash (frame_bytes "commit"
          (strBytes (commit_payload "treehash0" (get_head_commit stAttached) "n" "e" 0 "m"))))) =
        some (compress_content (frame_bytes "commit"
          (strBytes (commit_payload "treehash0" (get_head_commit stAttached) "n" "e" 0 "m")))) ∧
      (∀ p, get_head_commit stAttached = some p →
         ("parent " ++ p) ∈
           commit_header_lines "treehash0" (get_head_commit stAttached) "n" "e" 0) ∧
      (get_head_commit stAttached = none →
         ∀ q, ("parent " ++ q) ∉
           commit_header_lines "treehash0" (get_head_commit stAttached) "n" "e" 0) :=
  commit_parent_line tbOk stAttached stAttached "m" "n" "e" "treehash0" 0
    (fun _ => ⟨rfl, rfl⟩) rfl (by decide) rfl rfl

end Clony
